import Mathlib

/-!
# Verification of the python-sleep-tracker repository

Shallow embedding of the offline session-aggregation script
(`scripts/process_session.py`), the CSV writer (`src/data_writer.py`), the
device/streamer subscription path (`src/device.py`, `src/streamer.py`,
`src/helpers.py`) and the shutdown protocol (`src/helpers.py`), together
with theorems settling the behavioural claims about them.

Python floats are modelled as rationals; fallible Python code (exceptions)
is modelled with `Option`/`Except`.
-/

namespace SleepTracker

/-! ## Offline aggregation: scripts/process_session.py -/

/-- Python `int(x)` on a float: truncation toward zero. -/
def ratTrunc (q : ℚ) : ℤ :=
  if 0 ≤ q then ⌊q⌋ else -⌊-q⌋

/-- Loop of `cumulative_sum(rows, threshold)`: the running state is the
current value of `cumsum`; each row is a `(timestamp, value)` pair; the
row's `int(timestamp)` is emitted when `cumsum + abs(value)` exceeds the
threshold, and the sum then resets to zero. -/
def cumulative_sum_aux (threshold : ℚ) : ℚ → List (ℚ × ℚ) → List ℤ
  | _, [] => []
  | cumsum, (ts, v) :: rest =>
    if threshold < cumsum + |v| then
      ratTrunc ts :: cumulative_sum_aux threshold 0 rest
    else
      cumulative_sum_aux threshold (cumsum + |v|) rest

/-- `cumulative_sum(rows, threshold)` from scripts/process_session.py:
starts with `cumsum = 0`. -/
def cumulative_sum (rows : List (ℚ × ℚ)) (threshold : ℚ) : List ℤ :=
  cumulative_sum_aux threshold 0 rows

/-- `np.linspace(a, b, n)`: `n` evenly spaced values starting at `a` with
step `(b - a) / (n - 1)`. -/
def linspace (a b : ℚ) (n : ℕ) : List ℚ :=
  (List.range n).map (fun (i : ℕ) => a + (i : ℚ) * ((b - a) / ((n : ℚ) - 1)))

/-- `np.searchsorted(events, probes)` (default side `left`) on an
ascending `events` array: for each probe, the insertion index, i.e. the
number of events strictly less than the probe. -/
def searchsorted (events : List ℤ) (probes : List ℚ) : List ℕ :=
  probes.map (fun (p : ℚ) => events.countP (fun (e : ℤ) => decide ((e : ℚ) < p)))

/-- Python `range(0, stop, step)` for a positive `step`. -/
def range_step (stop step : ℕ) : List ℕ :=
  (List.range ((stop + step - 1) / step)).map (fun (k : ℕ) => k * step)

/-- `aggregate_data(data, bins)` from scripts/process_session.py:
`step_size = data[-1] // bins`; one count per `i in range(0, data[-1],
step_size)` of the entries `d` with `i < d <= i + step_size`.  `none`
models the exceptions: `IndexError` on an empty array, `ZeroDivisionError`
on `bins = 0`, and `ValueError` from `range` when `step_size` is zero. -/
def aggregate_data (data : List ℕ) (bins : ℕ) : Option (List ℕ) :=
  match data.getLast? with
  | none => none
  | some last =>
    if last / bins = 0 then none
    else
      some ((range_step last (last / bins)).map
        (fun (i : ℕ) => data.countP (fun (d : ℕ) => decide (i < d ∧ d ≤ i + last / bins))))

/-- The three activity stages; `aggregate_to_stages` encodes them as
1, 2, 3 and the spec names them Deep, Light, Awake. -/
inductive Stage
  | deep
  | light
  | awake
deriving DecidableEq, Repr

/-- Loop body of `aggregate_to_stages`: the stage of one bin, from the two
per-bin counts. -/
def classify_stage (acc gyro : ℕ) : Stage :=
  if acc ≤ 20 ∨ gyro ≤ 20 then .deep
  else if acc ≤ 200 ∧ gyro ≤ 200 then .light
  else .awake

/-- `aggregate_to_stages(acc_agg, gyro_agg)`: one stage per index of
`acc_agg`, reading `gyro_agg` at the same index; `none` models the
`IndexError` raised when `gyro_agg` is shorter than `acc_agg`. -/
def aggregate_to_stages (acc_agg gyro_agg : List ℕ) : Option (List Stage) :=
  if acc_agg.length ≤ gyro_agg.length then
    some ((List.range acc_agg.length).map
      (fun (i : ℕ) => classify_stage (acc_agg.getD i 0) (gyro_agg.getD i 0)))
  else none

/-- The binning stage of `main`: 1000 probe timestamps spanning the first
and last sample timestamps of the channel file, searchsorted against the
detected event timestamps; `none` models the `IndexError` on an empty
file. -/
def channel_cumulative_counts (rows : List (ℚ × ℚ)) (threshold : ℚ) :
    Option (List ℕ) :=
  match rows.head?, rows.getLast? with
  | some f, some l =>
    some (searchsorted (cumulative_sum rows threshold) (linspace f.1 l.1 1000))
  | _, _ => none

/-- One channel of `main`: event detection, binning, aggregation. -/
def process_channel (rows : List (ℚ × ℚ)) (threshold : ℚ) (bins : ℕ) :
    Option (List ℕ) :=
  (channel_cumulative_counts rows threshold).bind (fun (d : List ℕ) => aggregate_data d bins)

/-- `main` of scripts/process_session.py on the two persisted channel
files: accelerometer threshold 10, gyroscope threshold 100, then stage
aggregation. -/
def process_session (acc_rows gyro_rows : List (ℚ × ℚ)) (bins : ℕ) :
    Option (List Stage) :=
  (process_channel acc_rows 10 bins).bind
    (fun (a : List ℕ) => (process_channel gyro_rows 100 bins).bind
      (fun (g : List ℕ) => aggregate_to_stages a g))

/-! ## CSV writing: src/data_writer.py -/

/-- Rounding of an exact rational to the nearest integer, ties to the even
integer: the rounding Python's fixed-point float formatting applies to a
value that is exactly representable. -/
def roundHalfEven (q : ℚ) : ℤ :=
  if q - ⌊q⌋ < 1 / 2 then ⌊q⌋
  else if 1 / 2 < q - ⌊q⌋ then ⌊q⌋ + 1
  else if ⌊q⌋ % 2 = 0 then ⌊q⌋ else ⌊q⌋ + 1

/-- The character of a decimal digit. -/
def digitChar (d : ℕ) : Char :=
  Char.ofNat (48 + d)

/-- Little-endian decimal digits of `n`, with explicit fuel (any fuel
at least `n` is enough). -/
def natDigitsRev (fuel : ℕ) (n : ℕ) : List ℕ :=
  match fuel with
  | 0 => []
  | fuel + 1 => if n = 0 then [] else n % 10 :: natDigitsRev fuel (n / 10)

/-- Decimal rendering of a natural number, as Python's str/format does. -/
def natToChars (n : ℕ) : List Char :=
  if n = 0 then ['0'] else ((natDigitsRev n n).map digitChar).reverse

/-- Left-pad a digit string with zeros to a fixed width. -/
def padLeftZeros (width : ℕ) (cs : List Char) : List Char :=
  List.replicate (width - cs.length) '0' ++ cs

/-- Python fixed-point formatting of `q` to `prec` places, on an
exactly-representable value: sign,
integer part, a dot, exactly `prec` fractional digits of the value
rounded to `prec` decimal places. -/
def format_fixed (prec : ℕ) (q : ℚ) : List Char :=
  (if q < 0 then ['-'] else []) ++
    natToChars ((roundHalfEven (q * (10 : ℚ) ^ prec)).natAbs / 10 ^ prec) ++
    '.' :: padLeftZeros prec (natToChars ((roundHalfEven (q * (10 : ℚ) ^ prec)).natAbs % 10 ^ prec))

/-- `DataWriter._write_header`: raw mode writes
`timestamp,x_<units>,y_<units>,z_<units>`, processed mode writes
`time,diff_rss_<units>`, each followed by a newline. -/
def write_header (raw : Bool) (units : List Char) : List Char :=
  if raw then
    ['t', 'i', 'm', 'e', 's', 't', 'a', 'm', 'p', ',', 'x', '_'] ++ units ++
      [',', 'y', '_'] ++ units ++ [',', 'z', '_'] ++ units ++ ['\n']
  else
    ['t', 'i', 'm', 'e', ',', 'd', 'i', 'f', 'f', '_', 'r', 's', 's', '_'] ++ units ++ ['\n']

/-- Python's `','.join`: concatenation with a comma between entries. -/
def join_commas : List (List Char) → List Char
  | [] => []
  | [x] => x
  | x :: xs => x ++ ',' :: join_commas xs

/-- `_format_line(data)`: `time.time()` at the moment of the write (the
`now` argument) to 3 decimal places, then each payload float to 4 decimal
places, comma separated, newline terminated. -/
def format_line (now : ℚ) (data : List ℚ) : List Char :=
  format_fixed 3 now ++ ',' :: join_commas (data.map (format_fixed 4)) ++ ['\n']

/-- Read a decimal digit string back as a natural number. -/
def charsToNat (cs : List Char) : ℕ :=
  cs.foldl (fun (a : ℕ) (c : Char) => 10 * a + (c.toNat - 48)) 0

/-- Split a character list at the first dot. -/
def splitAtDot : List Char → List Char × Option (List Char)
  | [] => ([], none)
  | c :: rest =>
    if c = '.' then ([], some rest)
    else
      let (pre, post) := splitAtDot rest
      (c :: pre, post)

/-- Parse the unsigned part of a fixed-point decimal string:
`intPart.fracPart` as a rational. -/
def parse_unsigned (cs : List Char) : Option ℚ :=
  match splitAtDot cs with
  | (intPart, some fracPart) =>
    if intPart = [] ∨ fracPart = [] then none
    else some ((charsToNat intPart : ℚ) + (charsToNat fracPart : ℚ) / 10 ^ fracPart.length)
  | (_, none) => none

/-- Parse back a fixed-point decimal string of the shape the writer
emits: optional minus sign, integer digits, a dot, fractional digits. -/
def parse_fixed (cs : List Char) : Option ℚ :=
  match cs with
  | [] => none
  | c :: rest =>
    if c = '-' then (parse_unsigned rest).map (fun (q : ℚ) => -q)
    else parse_unsigned (c :: rest)

/-! ## Device and streamer subscription: src/device.py, src/streamer.py,
src/helpers.py -/

/-- The gyroscope hardware variants `MetaWearDevice` distinguishes. -/
inductive GyroModel
  | bmi160
  | bmi270
  | unsupported
deriving DecidableEq, Repr

/-- The `MetaWearDevice` state that gates subscription: the two
`*_configured` flags and the (cached) gyroscope model. -/
structure DeviceState where
  acc_configured : Bool
  gyro_configured : Bool
  gyro_model : GyroModel
deriving DecidableEq, Repr

/-- An on-device signal: a raw sensor signal or the output of a data
processor stage applied to another signal. -/
inductive SignalExpr
  | accRaw
  | gyroRaw
  | rss (s : SignalExpr)
  | avg (s : SignalExpr) (window : ℕ)
  | delta (s : SignalExpr) (min_delta : ℚ)
deriving DecidableEq, Repr

/-- `_create_standard_preprocessor(signal, window, min_delta)`: RSS, then
moving average, then delta, each stage fed the previous stage's signal. -/
def create_standard_preprocessor (s : SignalExpr) (window : ℕ) (min_delta : ℚ) : SignalExpr :=
  .delta (.avg (.rss s) window) min_delta

/-- The errors the subscription path can raise (`RuntimeError`s in
`_get_acc_signal` / `_get_gyro_signal`). -/
inductive SubscribeError
  | accNotConfigured
  | gyroNotConfigured
  | gyroUnsupported
deriving DecidableEq, Repr

/-- `MetaWearDevice._get_acc_signal`: raises when `acc_configured` is
false, otherwise the raw acceleration signal, run through the data
processor creator (with window 5 and min_delta 0.01) when one is given. -/
def get_acc_signal (st : DeviceState)
    (creator : Option (SignalExpr → ℕ → ℚ → SignalExpr)) :
    Except SubscribeError SignalExpr :=
  if st.acc_configured = false then .error .accNotConfigured
  else
    match creator with
    | some c => .ok (c .accRaw 5 (1 / 100))
    | none => .ok .accRaw

/-- `MetaWearDevice._get_gyro_signal`: raises when `gyro_configured` is
false; raises a different error when the gyroscope model is unsupported;
otherwise the raw rotation signal, run through the creator (window 5,
min_delta 3) when one is given. -/
def get_gyro_signal (st : DeviceState)
    (creator : Option (SignalExpr → ℕ → ℚ → SignalExpr)) :
    Except SubscribeError SignalExpr :=
  if st.gyro_configured = false then .error .gyroNotConfigured
  else
    match st.gyro_model with
    | .unsupported => .error .gyroUnsupported
    | _ =>
      match creator with
      | some c => .ok (c .gyroRaw 5 3)
      | none => .ok .gyroRaw

/-- `DataStreamer.subscribe_to_sensors(data_processor_creator)`: the
accelerometer and then the gyroscope subscription, both with the same
creator; the result is the pair of signals actually subscribed to. -/
def subscribe_to_sensors (st : DeviceState)
    (creator : Option (SignalExpr → ℕ → ℚ → SignalExpr)) :
    Except SubscribeError SignalExpr × Except SubscribeError SignalExpr :=
  (get_acc_signal st creator, get_gyro_signal st creator)

/-- The subscription performed by `stream_data` in src/helpers.py: it
builds the `DataStreamer` with the `raw` flag and then calls
`subscribe_to_sensors()` with no argument, so the default creator
`_create_standard_preprocessor` is used; the `raw` flag is not consulted
on this path. -/
def stream_data_subscribe (st : DeviceState) (raw : Bool) :
    Except SubscribeError SignalExpr × Except SubscribeError SignalExpr :=
  subscribe_to_sensors st (some create_standard_preprocessor)

/-- `_parse_enum_name(enum_name)`: keep exactly the digit characters of
the name and read them as a number (the subsequent underscore-to-dot
replacement is a no-op on a digits-only string, and the negativity check
cannot fire); `none` models the `ValueError` `float` raises on an empty
digit string. -/
def parse_enum_name (name : List Char) : Option ℚ :=
  if name.filter Char.isDigit = [] then none
  else some ((charsToNat (name.filter Char.isDigit) : ℕ) : ℚ)

/-- `MetaWearDevice.configure_accelerometer(acc_freq, acc_range)`: parses
both enum option names with `_parse_enum_name`, writes the two resulting
values to the device as ODR and range, and sets `acc_configured`; the
returned pair is the `(odr, range)` actually written. -/
def configure_accelerometer (st : DeviceState) (freqName rangeName : List Char) :
    Option (ℚ × ℚ × DeviceState) :=
  match parse_enum_name freqName, parse_enum_name rangeName with
  | some f, some r => some (f, r, { st with acc_configured := true })
  | _, _ => none

/-! ## Shutdown protocol: src/helpers.py -/

/-- The two streaming channels. -/
inductive Chan
  | acc
  | gyro
deriving DecidableEq, Repr

/-- The externally visible actions of `stream_data`'s interrupt handler. -/
inductive ShutdownAction
  | stopSampling
  | closeQueue (c : Chan)
  | waitIdle (c : Chan) (secs : ℕ)
  | killWorker (c : Chan)
  | closeFile (c : Chan)
deriving DecidableEq, Repr

/-- The `except KeyboardInterrupt` handler of `stream_data`: the actions
it performs, in order, paired with whether it aborts with an uncaught
exception.  Its first statement is
`if stream_process.is_alive(): stream_process.close()`; when the stream
process is still alive, `multiprocessing.Process.close()` raises
`ValueError` (a process that is still running cannot be closed), so the
handler aborts before any teardown step runs.  When the process has
already exited, the handler runs `streamer.stop_streaming()`, closes
both queues, waits up to 5 seconds on each channel's idle event, kills
both write processes and closes both writers, in that order.  The
boolean is true when the handler aborted. -/
def shutdown_actions (streamAlive : Bool) : List ShutdownAction × Bool :=
  if streamAlive then ([], true)
  else
    ([.stopSampling, .closeQueue .acc, .closeQueue .gyro,
      .waitIdle .acc 5, .waitIdle .gyro 5,
      .killWorker .acc, .killWorker .gyro,
      .closeFile .acc, .closeFile .gyro], false)

/-- The teardown `stream_data` performs: the handler's outcome when a
`KeyboardInterrupt` arrived, nothing (and no abort) otherwise. -/
def stream_data_teardown (interrupted streamAlive : Bool) : List ShutdownAction × Bool :=
  if interrupted then shutdown_actions streamAlive else ([], false)

/-- One iteration of `consume_data_queue`: a successful bounded-wait pop
clears the idle event and writes the row; a pop timeout sets the idle
event and writes nothing.  The result is the idle event's state after the
iteration and the writer's output so far. -/
def consume_step {α : Type} (popResult : Option α) (written : List α) : Bool × List α :=
  match popResult with
  | some d => (false, written ++ [d])
  | none => (true, written)

/-! ## General lemmas about the aggregation pipeline -/

set_option maxRecDepth 10000 in
/-- Over a session spanning integer timestamps 0 to 999, the 1000 probe
timestamps are exactly the integers 0, 1, ..., 999. -/
theorem linspace_999 : linspace 0 999 1000 = (List.range 1000).map (fun (n : ℕ) => (n : ℚ)) := by
  unfold linspace
  apply List.map_congr_left
  intro i _
  norm_num

/-- `searchsorted` against integer probes counts with an integer
comparison. -/
theorem searchsorted_natCast (events : List ℤ) (ns : List ℕ) :
    searchsorted events (ns.map (fun (n : ℕ) => (n : ℚ))) =
      ns.map (fun (n : ℕ) => events.countP (fun (e : ℤ) => decide (e < (n : ℤ)))) := by
  unfold searchsorted
  rw [List.map_map]
  apply List.map_congr_left
  intro n _
  apply List.countP_congr
  intro e _
  simp only [Function.comp, decide_eq_true_eq]
  exact_mod_cast Iff.rfl

/-! ## Concrete channel files used in the counterexamples -/

/-- Accelerometer channel file: eight samples that trigger seven events at
timestamps 1..7, inside a session spanning timestamps 0..999. -/
def acc_rows_c1 : List (ℚ × ℚ) :=
  [(0, 0), (1, 11), (2, 11), (3, 11), (4, 11), (5, 11), (6, 11), (7, 11), (999, 0)]

/-- Gyroscope channel file: four events at timestamps 1..4, same span. -/
def gyro_rows_c1 : List (ℚ × ℚ) :=
  [(0, 0), (1, 101), (2, 101), (3, 101), (4, 101), (999, 0)]

theorem cumulative_sum_acc_c1 : cumulative_sum acc_rows_c1 10 = [1, 2, 3, 4, 5, 6, 7] := by
  norm_num [cumulative_sum, acc_rows_c1, cumulative_sum_aux, ratTrunc]

theorem cumulative_sum_gyro_c1 : cumulative_sum gyro_rows_c1 100 = [1, 2, 3, 4] := by
  norm_num [cumulative_sum, gyro_rows_c1, cumulative_sum_aux, ratTrunc]

/-- The cumulative event counts of the accelerometer file, as a pure
integer computation. -/
theorem channel_counts_acc_c1 :
    channel_cumulative_counts acc_rows_c1 10 =
      some ((List.range 1000).map
        (fun (n : ℕ) => List.countP (fun (e : ℤ) => decide (e < (n : ℤ))) [1, 2, 3, 4, 5, 6, 7])) := by
  show some (searchsorted (cumulative_sum acc_rows_c1 10) (linspace 0 999 1000)) = _
  rw [cumulative_sum_acc_c1, linspace_999, searchsorted_natCast]

/-- The cumulative event counts of the gyroscope file, as a pure integer
computation. -/
theorem channel_counts_gyro_c1 :
    channel_cumulative_counts gyro_rows_c1 100 =
      some ((List.range 1000).map
        (fun (n : ℕ) => List.countP (fun (e : ℤ) => decide (e < (n : ℤ))) [1, 2, 3, 4])) := by
  show some (searchsorted (cumulative_sum gyro_rows_c1 100) (linspace 0 999 1000)) = _
  rw [cumulative_sum_gyro_c1, linspace_999, searchsorted_natCast]

set_option maxRecDepth 10000 in
theorem process_channel_acc_c1 : process_channel acc_rows_c1 10 2 = some [3, 3, 992] := by
  show (channel_cumulative_counts acc_rows_c1 10).bind _ = _
  rw [channel_counts_acc_c1, Option.some_bind]
  decide

set_option maxRecDepth 10000 in
theorem process_channel_gyro_c1 : process_channel gyro_rows_c1 100 2 = some [2, 996] := by
  show (channel_cumulative_counts gyro_rows_c1 100).bind _ = _
  rw [channel_counts_gyro_c1, Option.some_bind]
  decide

/-! ## C1 -/

set_option maxRecDepth 10000 in
/-- C1, counterexample.  With `bins = 2` and the persisted channel files
`acc_rows_c1` / `gyro_rows_c1`, the offline aggregator emits three
intensity values for the accelerometer channel and two for the gyroscope
channel: the per-channel count is not `bins`, the two lists differ in
length, and the stage pass fails with an `IndexError` instead of
producing `bins` stage values. -/
theorem c1_bins_counterexample :
    process_channel acc_rows_c1 10 2 = some [3, 3, 992] ∧
    process_channel gyro_rows_c1 100 2 = some [2, 996] ∧
    ([3, 3, 992] : List ℕ).length ≠ 2 ∧
    ([3, 3, 992] : List ℕ).length ≠ ([2, 996] : List ℕ).length ∧
    process_session acc_rows_c1 gyro_rows_c1 2 = none := by
  refine ⟨process_channel_acc_c1, process_channel_gyro_c1, by decide, by decide, ?_⟩
  show (process_channel acc_rows_c1 10 2).bind _ = _
  rw [process_channel_acc_c1, Option.some_bind]
  show (process_channel gyro_rows_c1 100 2).bind _ = _
  rw [process_channel_gyro_c1, Option.some_bind]
  decide

/-- When `bins` exactly divides the last cumulative count, the number of
aggregation windows is exactly `bins`. -/
theorem aggregate_data_bins_length (data : List ℕ) (bins l : ℕ)
    (hl : data.getLast? = some l) (hb : 0 < bins) (hdvd : bins ∣ l) (hpos : 0 < l) :
    ∃ a, aggregate_data data bins = some a ∧ a.length = bins := by
  obtain ⟨s, hs⟩ := hdvd
  have hs0 : 0 < s := by
    rcases Nat.eq_zero_or_pos s with h | h
    · subst h; omega
    · exact h
  have hstep : l / bins = s := by rw [hs]; exact Nat.mul_div_cancel_left s hb
  have hne : ¬l / bins = 0 := by omega
  refine ⟨(range_step l (l / bins)).map
    (fun (i : ℕ) => data.countP (fun (d : ℕ) => decide (i < d ∧ d ≤ i + l / bins))), ?_, ?_⟩
  · unfold aggregate_data
    rw [hl]
    exact if_neg hne
  · rw [List.length_map]
    unfold range_step
    rw [List.length_map, List.length_range, hstep, hs]
    have harith : bins * s + s - 1 = s * bins + (s - 1) := by
      rw [Nat.mul_comm]; omega
    rw [harith, Nat.mul_add_div hs0, Nat.div_eq_of_lt (by omega)]
    omega

/-- C1, amended.  When `bins ≥ 1` exactly divides the (positive) last
cumulative count of each channel, the aggregator does produce exactly
`bins` intensity values per channel, the two lists have equal length, and
exactly `bins` stage values are produced; in general the per-channel
count is `ceil(last / (last // bins))`, which can exceed `bins` (see the
counterexample). -/
theorem c1_bins_amended : ∀ (acc_data gyro_data : List ℕ) (bins la lg : ℕ),
    acc_data.getLast? = some la → gyro_data.getLast? = some lg →
    0 < bins → bins ∣ la → bins ∣ lg → 0 < la → 0 < lg →
    ∃ a g s, aggregate_data acc_data bins = some a ∧ aggregate_data gyro_data bins = some g ∧
      a.length = bins ∧ g.length = bins ∧
      aggregate_to_stages a g = some s ∧ s.length = bins := by
  intro acc_data gyro_data bins la lg hla hlg hb hda hdg hpa hpg
  obtain ⟨a, ha, hal⟩ := aggregate_data_bins_length acc_data bins la hla hb hda hpa
  obtain ⟨g, hg, hgl⟩ := aggregate_data_bins_length gyro_data bins lg hlg hb hdg hpg
  refine ⟨a, g, (List.range a.length).map
      (fun (i : ℕ) => classify_stage (a.getD i 0) (g.getD i 0)),
    ha, hg, hal, hgl, ?_, ?_⟩
  · unfold aggregate_to_stages
    rw [if_pos (by omega)]
  · rw [List.length_map, List.length_range, hal]

/-- Witness for C1's amended theorem at `bins = 2` with cumulative counts
ending in 4 and 2. -/
theorem c1_bins_amended_witness :
    ∃ a g s, aggregate_data [1, 2, 4] 2 = some a ∧ aggregate_data [0, 1, 2] 2 = some g ∧
      a.length = 2 ∧ g.length = 2 ∧ aggregate_to_stages a g = some s ∧ s.length = 2 :=
  c1_bins_amended [1, 2, 4] [0, 1, 2] 2 4 2 rfl rfl (by decide) (by decide) (by decide)
    (by decide) (by decide)

/-! ## C2 -/

/-- C2.  Stage classification is the stated pure function of the two
per-bin counts: Deep when either count is at most 20, else Light when
both are at most 200, else Awake; in particular
`classify(15, 999) = Deep`, `classify(150, 150) = Light` and
`classify(500, 500) = Awake`. -/
theorem c2_stage_classification :
    (∀ acc gyro : ℕ,
      (classify_stage acc gyro = .deep ↔ acc ≤ 20 ∨ gyro ≤ 20) ∧
      (classify_stage acc gyro = .light ↔ ¬(acc ≤ 20 ∨ gyro ≤ 20) ∧ (acc ≤ 200 ∧ gyro ≤ 200)) ∧
      (classify_stage acc gyro = .awake ↔ ¬(acc ≤ 20 ∨ gyro ≤ 20) ∧ ¬(acc ≤ 200 ∧ gyro ≤ 200))) ∧
    classify_stage 15 999 = .deep ∧ classify_stage 150 150 = .light ∧
    classify_stage 500 500 = .awake := by
  refine ⟨?_, by decide, by decide, by decide⟩
  intro acc gyro
  unfold classify_stage
  split_ifs with h1 h2 <;> simp_all

/-! ## C9 -/

/-- C9.  `aggregate_data` is partial: for a cumulative-count sequence
with last element `l` and `bins ≥ 1`, it fails (`ValueError` from the
zero step size) exactly when `l < bins`, so it succeeds only when at
least `bins` events precede the last probe; and with zero detected
events the monotonic search yields all-zero cumulative counts. -/
theorem c9_aggregate_precondition : ∀ (data : List ℕ) (bins l : ℕ),
    data.getLast? = some l → 0 < bins →
    ((aggregate_data data bins = none) ↔ l < bins) ∧
    (∀ probes : List ℚ, searchsorted [] probes = List.replicate probes.length 0) := by
  intro data bins l hl hb
  have hrw : aggregate_data data bins =
      if l / bins = 0 then none
      else some ((range_step l (l / bins)).map
        (fun (i : ℕ) => data.countP (fun (d : ℕ) => decide (i < d ∧ d ≤ i + l / bins)))) := by
    unfold aggregate_data
    rw [hl]
  constructor
  · rw [hrw]
    constructor
    · intro h
      by_contra hlt
      push_neg at hlt
      rw [if_neg (by have := Nat.div_pos hlt hb; omega)] at h
      exact Option.noConfusion h
    · intro h
      rw [if_pos (Nat.div_eq_of_lt h)]
  · intro probes
    unfold searchsorted
    simp only [List.countP_nil]
    exact List.map_const' probes 0 ▸ rfl

/-- Witness for C9 at the cumulative counts `[0, 1]` and `bins = 3`. -/
theorem c9_aggregate_precondition_witness :
    ((aggregate_data [0, 1] 3 = none) ↔ 1 < 3) ∧
    (∀ probes : List ℚ, searchsorted [] probes = List.replicate probes.length 0) :=
  c9_aggregate_precondition [0, 1] 3 1 rfl (by decide)

/-! ## C4 -/

/-- Channel file with a single event at timestamp 5, which is also the
value of the sixth probe timestamp. -/
def rows_c4 : List (ℚ × ℚ) := [(0, 0), (5, 11), (999, 0)]

theorem cumulative_sum_c4 : cumulative_sum rows_c4 10 = [5] := by
  norm_num [cumulative_sum, rows_c4, cumulative_sum_aux, ratTrunc]

/-- The cumulative event counts of `rows_c4`, as a pure integer
computation. -/
theorem channel_counts_c4 :
    channel_cumulative_counts rows_c4 10 =
      some ((List.range 1000).map
        (fun (n : ℕ) => List.countP (fun (e : ℤ) => decide (e < (n : ℤ))) [5])) := by
  show some (searchsorted (cumulative_sum rows_c4 10) (linspace 0 999 1000)) = _
  rw [cumulative_sum_c4, linspace_999, searchsorted_natCast]

set_option maxRecDepth 10000 in
/-- C4, counterexample.  On `rows_c4` the only detected event is at
timestamp 5, and the sixth probe timestamp is exactly 5; the number of
events at-or-before that probe is 1, but the binning stage computes 0
there: `np.searchsorted` (side `left`) counts the events strictly before
each probe, not at-or-before it. -/
theorem c4_at_or_before_counterexample :
    cumulative_sum rows_c4 10 = [5] ∧
    (linspace 0 999 1000).getD 5 0 = 5 ∧
    (channel_cumulative_counts rows_c4 10).map (fun (d : List ℕ) => d.getD 5 777) = some 0 ∧
    List.countP (fun (e : ℤ) => decide ((e : ℚ) ≤ 5)) (cumulative_sum rows_c4 10) = 1 := by
  refine ⟨cumulative_sum_c4, ?_, ?_, ?_⟩
  · rw [linspace_999]
    simp only [List.getD, List.getElem?_map, List.getElem?_range]
    norm_num
  · rw [channel_counts_c4]
    show some _ = some 0
    congr 1
  · rw [cumulative_sum_c4]
    simp only [List.countP_cons, List.countP_nil, decide_eq_true_eq]
    norm_num

set_option maxRecDepth 10000 in
/-- C4, amended.  For every nonempty channel file, the binning stage
produces exactly 1000 cumulative counts; the count at probe index `i` is
the number of detected events strictly before the probe timestamp
`first + i * (last - first) / 999` (not at-or-before it); and when the
file's timestamps span a nonnegative interval the count sequence is
non-decreasing. -/
theorem c4_binning_amended : ∀ (rows : List (ℚ × ℚ)) (t : ℚ) (f l : ℚ × ℚ) (d : List ℕ),
    rows.head? = some f → rows.getLast? = some l →
    channel_cumulative_counts rows t = some d →
    d.length = 1000 ∧
    (∀ i : ℕ, i < 1000 →
      d.getD i 0 = (cumulative_sum rows t).countP
        (fun (e : ℤ) => decide ((e : ℚ) < f.1 + (i : ℚ) * ((l.1 - f.1) / 999)))) ∧
    (f.1 ≤ l.1 → d.Chain' (· ≤ ·)) := by
  intro rows t f l d hf hl hd
  have hdval : d = searchsorted (cumulative_sum rows t) (linspace f.1 l.1 1000) := by
    unfold channel_cumulative_counts at hd
    rw [hf, hl] at hd
    exact (Option.some.inj hd).symm
  have h999 : ((1000 : ℕ) : ℚ) - 1 = 999 := by norm_num
  subst hdval
  refine ⟨?_, ?_, ?_⟩
  · unfold searchsorted linspace
    rw [List.length_map, List.length_map, List.length_range]
  · intro i hi
    unfold searchsorted linspace
    rw [List.map_map, h999]
    simp [List.getD, List.getElem?_map, List.getElem?_range hi, Function.comp]
  · intro hfl
    unfold searchsorted linspace
    rw [List.map_map]
    have hstep : 0 ≤ (l.1 - f.1) / ((1000 : ℕ) - 1 : ℚ) := by
      rw [h999]
      exact div_nonneg (by linarith) (by norm_num)
    rw [List.chain'_map]
    have : (1000 : ℕ) = 999 + 1 := by norm_num
    rw [this, List.chain'_range_succ]
    intro m hm
    apply List.countP_mono_left
    intro e _ he
    simp only [decide_eq_true_eq] at he ⊢
    refine lt_of_lt_of_le he ?_
    have : (m : ℚ) ≤ ((m + 1 : ℕ) : ℚ) := by push_cast; linarith
    nlinarith [mul_le_mul_of_nonneg_right this hstep]

/-- Witness for C4's amended theorem on the one-row channel file
`[(0, 0)]`. -/
theorem c4_binning_amended_witness :
    (searchsorted (cumulative_sum [((0 : ℚ), (0 : ℚ))] 10) (linspace 0 0 1000)).length = 1000 ∧
    (∀ i : ℕ, i < 1000 →
      (searchsorted (cumulative_sum [((0 : ℚ), (0 : ℚ))] 10) (linspace 0 0 1000)).getD i 0 =
        (cumulative_sum [((0 : ℚ), (0 : ℚ))] 10).countP
          (fun (e : ℤ) => decide ((e : ℚ) < 0 + (i : ℚ) * ((0 - 0) / 999)))) ∧
    ((0 : ℚ) ≤ 0 →
      (searchsorted (cumulative_sum [((0 : ℚ), (0 : ℚ))] 10) (linspace 0 0 1000)).Chain' (· ≤ ·)) :=
  c4_binning_amended [((0 : ℚ), (0 : ℚ))] 10 (0, 0) (0, 0)
    (searchsorted (cumulative_sum [((0 : ℚ), (0 : ℚ))] 10) (linspace 0 0 1000)) rfl rfl rfl

/-! ## C3 -/

/-- Truncation toward zero is monotone. -/
theorem ratTrunc_mono {a b : ℚ} (h : a ≤ b) : ratTrunc a ≤ ratTrunc b := by
  unfold ratTrunc
  split_ifs with ha hb hb
  · exact Int.floor_mono h
  · exact absurd (le_trans ha h) hb
  · have h1 : (0 : ℤ) ≤ ⌊-a⌋ := Int.floor_nonneg.mpr (by linarith)
    have h2 : (0 : ℤ) ≤ ⌊b⌋ := Int.floor_nonneg.mpr hb
    omega
  · have := Int.floor_mono (neg_le_neg h)
    omega

/-- Every emitted event value is the truncation of some input row's
timestamp. -/
theorem cumulative_sum_aux_mem (t : ℚ) : ∀ (c : ℚ) (rows : List (ℚ × ℚ)) (e : ℤ),
    e ∈ cumulative_sum_aux t c rows → ∃ p ∈ rows, e = ratTrunc p.1 := by
  intro c rows
  induction rows generalizing c with
  | nil => intro e he; simp [cumulative_sum_aux] at he
  | cons hd tl ih =>
    intro e he
    obtain ⟨ts, v⟩ := hd
    simp only [cumulative_sum_aux] at he
    split_ifs at he with hcond
    · rcases List.mem_cons.mp he with h | h
      · exact ⟨(ts, v), List.mem_cons_self _ _, h⟩
      · obtain ⟨p, hp, he'⟩ := ih 0 e h
        exact ⟨p, List.mem_cons_of_mem _ hp, he'⟩
    · obtain ⟨p, hp, he'⟩ := ih _ e he
      exact ⟨p, List.mem_cons_of_mem _ hp, he'⟩

/-- Every emitted event value is bounded below by the truncation of any
lower bound on the remaining timestamps. -/
theorem cumulative_sum_aux_lowerBound (t : ℚ) : ∀ (c b : ℚ) (rows : List (ℚ × ℚ)),
    (∀ p ∈ rows, b ≤ p.1) → ∀ e ∈ cumulative_sum_aux t c rows, ratTrunc b ≤ e := by
  intro c b rows
  induction rows generalizing c with
  | nil => intro _ e he; simp [cumulative_sum_aux] at he
  | cons hd tl ih =>
    intro hb e he
    obtain ⟨ts, v⟩ := hd
    simp only [cumulative_sum_aux] at he
    split_ifs at he with hcond
    · rcases List.mem_cons.mp he with h | h
      · exact h ▸ ratTrunc_mono (hb (ts, v) (List.mem_cons_self _ _))
      · exact ih 0 (fun p hp => hb p (List.mem_cons_of_mem _ hp)) e h
    · exact ih _ (fun p hp => hb p (List.mem_cons_of_mem _ hp)) e he

/-- With pairwise-nondecreasing timestamps, the emitted event sequence is
nondecreasing, whatever the running sum is. -/
theorem cumulative_sum_aux_chain (t : ℚ) : ∀ (c : ℚ) (rows : List (ℚ × ℚ)),
    (rows.map Prod.fst).Pairwise (· ≤ ·) → (cumulative_sum_aux t c rows).Chain' (· ≤ ·) := by
  intro c rows
  induction rows generalizing c with
  | nil => intro _; simp [cumulative_sum_aux]
  | cons hd tl ih =>
    intro hp
    obtain ⟨ts, v⟩ := hd
    rw [List.map_cons, List.pairwise_cons] at hp
    obtain ⟨hts, htl⟩ := hp
    simp only [cumulative_sum_aux]
    split_ifs with hcond
    · rw [List.chain'_cons']
      refine ⟨?_, ih 0 htl⟩
      intro y hy
      apply cumulative_sum_aux_lowerBound t 0 ts tl ?_ y (List.mem_of_mem_head? hy)
      intro p hpmem
      exact hts p.1 (List.mem_map_of_mem Prod.fst hpmem)
    · exact ih _ htl

/-- The channel file behind C3's counterexample: two samples 0.2 seconds
apart, each alone exceeding the threshold. -/
def rows_c3 : List (ℚ × ℚ) := [(3 / 2, 20), (17 / 10, 20)]

/-- C3, counterexample.  On the strictly ascending timestamps 1.5 and
1.7, each sample exceeds the threshold 10, so two events are emitted,
but both carry `int(timestamp) = 1`: the emitted sequence `[1, 1]` is
not strictly ascending, and the emitted value is the truncated
timestamp, not the row's timestamp 1.5. -/
theorem c3_truncation_counterexample :
    ((3 : ℚ) / 2 < 17 / 10) ∧
    cumulative_sum rows_c3 10 = [1, 1] ∧
    ¬ List.Chain' (fun (a b : ℤ) => a < b) [(1 : ℤ), 1] ∧
    ((1 : ℤ) : ℚ) ≠ 3 / 2 := by
  have h1 : ratTrunc (3 / 2) = 1 := by
    unfold ratTrunc
    rw [if_pos (by norm_num), Int.floor_eq_iff]
    norm_num
  have h2 : ratTrunc (17 / 10) = 1 := by
    unfold ratTrunc
    rw [if_pos (by norm_num), Int.floor_eq_iff]
    norm_num
  refine ⟨by norm_num, ?_, by norm_num [List.chain'_cons, List.chain'_singleton], by norm_num⟩
  norm_num [cumulative_sum, rows_c3, cumulative_sum_aux, h1, h2]

/-- C3, amended.  The detector keeps a running sum of absolute sample
values, emits the integer truncation of the current row's timestamp when
the sum exceeds the threshold, and resets the sum; for every input with
strictly ascending timestamps, the emitted sequence is non-decreasing
(strictly ascending only when the truncated timestamps are distinct),
and every emitted value is the truncation of some row's timestamp. -/
theorem c3_event_detection_amended : ∀ (rows : List (ℚ × ℚ)) (t : ℚ),
    (rows.map Prod.fst).Chain' (· < ·) →
    (cumulative_sum rows t).Chain' (· ≤ ·) ∧
    ∀ e ∈ cumulative_sum rows t, ∃ p ∈ rows, e = ratTrunc p.1 := by
  intro rows t hasc
  constructor
  · exact cumulative_sum_aux_chain t 0 rows ((List.chain'_iff_pairwise.mp hasc).imp le_of_lt)
  · exact fun e he => cumulative_sum_aux_mem t 0 rows e he

/-- Witness for C3's amended theorem on a two-row file with timestamps
1 and 2. -/
theorem c3_event_detection_amended_witness :
    (cumulative_sum [((1 : ℚ), (20 : ℚ)), (2, 20)] 10).Chain' (· ≤ ·) ∧
    ∀ e ∈ cumulative_sum [((1 : ℚ), (20 : ℚ)), (2, 20)] 10,
      ∃ p ∈ [((1 : ℚ), (20 : ℚ)), (2, 20)], e = ratTrunc p.1 :=
  c3_event_detection_amended [((1 : ℚ), (20 : ℚ)), (2, 20)] 10
    (by norm_num [List.chain'_cons, List.chain'_singleton])

/-! ## C5 -/

/-- C5, counterexample.  When the interrupt arrives while the stream
process handle is still alive, the handler's first statement
`stream_process.close()` raises `ValueError` and the handler aborts:
none of the five shutdown steps runs — in particular device sampling is
never stopped — refuting the claim that the ordered shutdown is
performed on every user interrupt. -/
theorem c5_shutdown_abort_counterexample :
    (stream_data_teardown true true).2 = true ∧
    (stream_data_teardown true true).1 = [] ∧
    ShutdownAction.stopSampling ∉ (stream_data_teardown true true).1 := by
  decide

/-- C5, amended.  The teardown runs only on a user interrupt; when at
that point the stream process has already exited, the handler performs,
in strict order: stop device sampling, close the accelerometer and
gyroscope queues, wait up to 5 seconds on each channel's idle signal,
unconditionally kill both consumer workers, close both file handles — in
particular stopping the device sampling precedes both queue closures on
this path; when the stream process is still alive,
`multiprocessing.Process.close()` raises `ValueError` and the handler
aborts before performing any of those steps.  The idle signal is set by
a consumer iteration exactly on a pop timeout and cleared on a
successful pop. -/
theorem c5_shutdown_protocol_amended :
    (∀ s : Bool, stream_data_teardown false s = ([], false)) ∧
    stream_data_teardown true true = ([], true) ∧
    ((stream_data_teardown true false).1.indexOf .stopSampling <
        (stream_data_teardown true false).1.indexOf (.closeQueue .acc) ∧
      (stream_data_teardown true false).1.indexOf (.closeQueue .acc) <
        (stream_data_teardown true false).1.indexOf (.closeQueue .gyro) ∧
      (stream_data_teardown true false).1.indexOf (.closeQueue .gyro) <
        (stream_data_teardown true false).1.indexOf (.waitIdle .acc 5) ∧
      (stream_data_teardown true false).1.indexOf (.waitIdle .acc 5) <
        (stream_data_teardown true false).1.indexOf (.waitIdle .gyro 5) ∧
      (stream_data_teardown true false).1.indexOf (.waitIdle .gyro 5) <
        (stream_data_teardown true false).1.indexOf (.killWorker .acc) ∧
      (stream_data_teardown true false).1.indexOf (.killWorker .acc) <
        (stream_data_teardown true false).1.indexOf (.killWorker .gyro) ∧
      (stream_data_teardown true false).1.indexOf (.killWorker .gyro) <
        (stream_data_teardown true false).1.indexOf (.closeFile .acc) ∧
      (stream_data_teardown true false).1.indexOf (.closeFile .acc) <
        (stream_data_teardown true false).1.indexOf (.closeFile .gyro) ∧
      ShutdownAction.closeFile .gyro ∈ (stream_data_teardown true false).1 ∧
      (stream_data_teardown true false).2 = false) ∧
    (∀ (pop : Option (List ℚ)) (w : List (List ℚ)),
      ((consume_step pop w).1 = true ↔ pop = none) ∧
      (∀ d : List ℚ, consume_step (some d) w = (false, w ++ [d])) ∧
      consume_step none w = (true, w)) := by
  refine ⟨fun s => rfl, rfl, by decide, fun pop w => ⟨?_, fun d => rfl, rfl⟩⟩
  cases pop <;> simp [consume_step]

/-! ## C6 -/

/-- C6, counterexample.  With both channels configured, the subscription
performed by `stream_data` with the raw-mode flag set to true still
builds the full filter chain (RSS, moving average, delta) and subscribes
to its final stage, not to the raw signal: `subscribe_to_sensors` is
called with its default `data_processor_creator` and never consults the
raw flag. -/
theorem c6_raw_mode_counterexample :
    stream_data_subscribe ⟨true, true, .bmi160⟩ true =
      (.ok (.delta (.avg (.rss .accRaw) 5) (1 / 100)),
       .ok (.delta (.avg (.rss .gyroRaw) 5) 3)) ∧
    SignalExpr.delta (.avg (.rss .accRaw) 5) (1 / 100) ≠ .accRaw :=
  ⟨rfl, fun h => SignalExpr.noConfusion h⟩

/-- C6, amended.  On every configured device state and for both values of
the raw flag, the `stream_data` subscription builds the on-device filter
chain (RSS, then moving average, then delta) and subscribes each channel
to the final stage's output; subscribing directly to the raw signal
happens only when no data-processor creator is supplied, which
`stream_data` never does. -/
theorem c6_raw_mode_amended : ∀ (st : DeviceState) (raw : Bool),
    st.acc_configured = true → st.gyro_configured = true → st.gyro_model ≠ .unsupported →
    stream_data_subscribe st raw =
      (.ok (create_standard_preprocessor .accRaw 5 (1 / 100)),
       .ok (create_standard_preprocessor .gyroRaw 5 3)) ∧
    get_acc_signal st none = .ok .accRaw ∧ get_gyro_signal st none = .ok .gyroRaw := by
  intro st raw hacc hgyro hmodel
  obtain ⟨ac, gc, gm⟩ := st
  have hac : ac = true := hacc
  have hgc : gc = true := hgyro
  subst hac
  subst hgc
  cases gm with
  | bmi160 => exact ⟨rfl, rfl, rfl⟩
  | bmi270 => exact ⟨rfl, rfl, rfl⟩
  | unsupported => exact absurd rfl hmodel

/-- Witness for C6's amended theorem on a configured BMI270 device with
the raw flag false. -/
theorem c6_raw_mode_amended_witness :
    stream_data_subscribe ⟨true, true, .bmi270⟩ false =
      (.ok (create_standard_preprocessor .accRaw 5 (1 / 100)),
       .ok (create_standard_preprocessor .gyroRaw 5 3)) ∧
    get_acc_signal ⟨true, true, .bmi270⟩ none = .ok .accRaw ∧
    get_gyro_signal ⟨true, true, .bmi270⟩ none = .ok .gyroRaw :=
  c6_raw_mode_amended ⟨true, true, .bmi270⟩ false rfl rfl
    (fun h => GyroModel.noConfusion h)

/-! ## C7 -/

/-- C7.  For every device state and creator, subscribing fails with the
channel's not-configured error exactly when that channel's configured
flag is false: the accelerometer path raises before any signal is
obtained if and only if `acc_configured` is unset, the gyroscope path if
and only if `gyro_configured` is unset; with the flag set, the
subscription never raises that error. -/
theorem c7_not_configured_iff :
    ∀ (st : DeviceState) (creator : Option (SignalExpr → ℕ → ℚ → SignalExpr)),
      (get_acc_signal st creator = .error .accNotConfigured ↔ st.acc_configured = false) ∧
      (get_gyro_signal st creator = .error .gyroNotConfigured ↔ st.gyro_configured = false) := by
  intro st creator
  obtain ⟨ac, gc, gm⟩ := st
  constructor
  · cases ac <;> cases creator <;> simp [get_acc_signal]
  · cases gc <;> cases gm <;> cases creator <;> simp [get_gyro_signal]

/-! ## C8: decimal rendering and parsing lemmas -/

/-- The code point of a digit character. -/
theorem digitChar_toNat {d : ℕ} (h : d < 10) : (digitChar d).toNat = 48 + d := by
  have hd : d = 0 ∨ d = 1 ∨ d = 2 ∨ d = 3 ∨ d = 4 ∨ d = 5 ∨ d = 6 ∨ d = 7 ∨ d = 8 ∨ d = 9 := by
    omega
  rcases hd with rfl | rfl | rfl | rfl | rfl | rfl | rfl | rfl | rfl | rfl <;> decide

/-- `natDigitsRev` with sufficient fuel computes `Nat.digits 10`. -/
theorem natDigitsRev_eq_digits : ∀ (fuel n : ℕ), n ≤ fuel → natDigitsRev fuel n = Nat.digits 10 n := by
  intro fuel
  induction fuel with
  | zero =>
    intro n hn
    have : n = 0 := by omega
    subst this
    simp [natDigitsRev]
  | succ f ih =>
    intro n hn
    by_cases h0 : n = 0
    · subst h0
      simp [natDigitsRev]
    · simp only [natDigitsRev, if_neg h0]
      rw [Nat.digits_def' (by norm_num : (1 : ℕ) < 10) (Nat.pos_of_ne_zero h0)]
      congr 1
      have hdiv : n / 10 < n := Nat.div_lt_self (Nat.pos_of_ne_zero h0) (by norm_num)
      exact ih (n / 10) (by omega)

/-- For a positive number, the rendering is the reversed digit list. -/
theorem natToChars_eq_digits {n : ℕ} (h : n ≠ 0) :
    natToChars n = ((Nat.digits 10 n).map digitChar).reverse := by
  unfold natToChars
  rw [if_neg h, natDigitsRev_eq_digits n n le_rfl]

/-- The rendering of a natural number is never empty. -/
theorem natToChars_ne_nil (n : ℕ) : natToChars n ≠ [] := by
  by_cases h : n = 0
  · subst h
    decide
  · rw [natToChars_eq_digits h]
    simp [Nat.digits_ne_nil_iff_ne_zero.mpr h]

/-- Every character of a rendered natural number is a decimal digit. -/
theorem mem_natToChars_toNat {n : ℕ} {c : Char} (hc : c ∈ natToChars n) :
    48 ≤ c.toNat ∧ c.toNat ≤ 57 := by
  by_cases h : n = 0
  · subst h
    rw [show natToChars 0 = ['0'] from rfl, List.mem_singleton] at hc
    subst hc
    decide
  · rw [natToChars_eq_digits h, List.mem_reverse] at hc
    obtain ⟨d, hd, rfl⟩ := List.mem_map.mp hc
    have hlt : d < 10 := Nat.digits_lt_base (by norm_num) hd
    rw [digitChar_toNat hlt]
    omega

/-- Reading the decimal fold is evaluating the reversed digit values. -/
theorem charsToNat_foldl_eq : ∀ (cs : List Char) (a : ℕ),
    cs.foldl (fun (x : ℕ) (c : Char) => 10 * x + (c.toNat - 48)) a =
      a * 10 ^ cs.length +
        Nat.ofDigits 10 ((cs.map (fun (c : Char) => c.toNat - 48)).reverse) := by
  intro cs
  induction cs with
  | nil =>
    intro a
    simp [Nat.ofDigits_nil]
  | cons c tl ih =>
    intro a
    rw [List.foldl_cons, ih, List.map_cons, List.reverse_cons, Nat.ofDigits_append,
      Nat.ofDigits_singleton]
    simp only [List.length_cons, List.length_reverse, List.length_map]
    ring

/-- Rendering then reading back is the identity. -/
theorem charsToNat_natToChars (n : ℕ) : charsToNat (natToChars n) = n := by
  by_cases h0 : n = 0
  · subst h0
    decide
  · unfold charsToNat
    rw [charsToNat_foldl_eq, natToChars_eq_digits h0, zero_mul, zero_add,
      List.map_reverse, List.reverse_reverse, List.map_map]
    have hid : (Nat.digits 10 n).map ((fun (c : Char) => c.toNat - 48) ∘ digitChar) =
        Nat.digits 10 n := by
      conv_rhs => rw [← List.map_id (Nat.digits 10 n)]
      apply List.map_congr_left
      intro d hd
      have hlt : d < 10 := Nat.digits_lt_base (by norm_num) hd
      simp only [Function.comp, digitChar_toNat hlt, id]
      omega
    rw [hid, Nat.ofDigits_digits]

/-- The rendering of a number below `10 ^ prec` has at most `prec`
characters (for positive `prec`). -/
theorem natToChars_length_le {n prec : ℕ} (hp : 0 < prec) (h : n < 10 ^ prec) :
    (natToChars n).length ≤ prec := by
  by_cases h0 : n = 0
  · subst h0
    simpa using hp
  · rw [natToChars_eq_digits h0]
    simp only [List.length_reverse, List.length_map]
    rw [Nat.digits_len 10 n (by norm_num) h0]
    have := (Nat.lt_pow_iff_log_lt (by norm_num : 1 < 10) h0).mp h
    omega

/-- Splitting at the dot of a dot-free prefix. -/
theorem splitAtDot_append : ∀ (xs ys : List Char), '.' ∉ xs →
    splitAtDot (xs ++ '.' :: ys) = (xs, some ys) := by
  intro xs
  induction xs with
  | nil =>
    intro ys _
    simp [splitAtDot]
  | cons c tl ih =>
    intro ys hnd
    have hc : ¬c = '.' := fun h => hnd (h ▸ List.mem_cons_self _ _)
    have ih' := ih ys (fun h => hnd (List.mem_cons_of_mem _ h))
    simp only [List.cons_append, splitAtDot, if_neg hc]
    rw [show tl.append ('.' :: ys) = tl ++ '.' :: ys from rfl, ih']

/-- Left-padding with zero characters does not change the value read
back. -/
theorem charsToNat_padLeftZeros (w : ℕ) (cs : List Char) :
    charsToNat (padLeftZeros w cs) = charsToNat cs := by
  unfold padLeftZeros charsToNat
  rw [List.foldl_append]
  have hzeros : ∀ k : ℕ, (List.replicate k '0').foldl
      (fun (x : ℕ) (c : Char) => 10 * x + (c.toNat - 48)) 0 = 0 := by
    intro k
    induction k with
    | zero => rfl
    | succ k ih =>
      rw [List.replicate_succ, List.foldl_cons]
      have h0 : (10 * 0 + ('0'.toNat - 48)) = 0 := by decide
      rw [h0]
      exact ih
  rw [hzeros]

/-- Left-padding to a width at least the current length gives exactly
that width. -/
theorem padLeftZeros_length {w : ℕ} {cs : List Char} (h : cs.length ≤ w) :
    (padLeftZeros w cs).length = w := by
  simp only [padLeftZeros, List.length_append, List.length_replicate]
  omega

/-- Round-half-even of a nonnegative value is nonnegative. -/
theorem roundHalfEven_nonneg {q : ℚ} (h : 0 ≤ q) : 0 ≤ roundHalfEven q := by
  unfold roundHalfEven
  have h0 : (0 : ℤ) ≤ ⌊q⌋ := Int.floor_nonneg.mpr h
  split_ifs <;> omega

/-- Round-half-even of a nonpositive value is nonpositive. -/
theorem roundHalfEven_nonpos {q : ℚ} (h : q ≤ 0) : roundHalfEven q ≤ 0 := by
  unfold roundHalfEven
  have hfl : ⌊q⌋ ≤ 0 := by
    have := Int.floor_mono h
    simpa using this
  have hup : ∀ hh : ¬q - ⌊q⌋ < 1 / 2, ⌊q⌋ + 1 ≤ 0 := by
    intro hh
    push_neg at hh
    have hcast : (⌊q⌋ : ℚ) ≤ q - 1 / 2 := by linarith
    have hneg : (⌊q⌋ : ℚ) < 0 := by linarith
    have : ⌊q⌋ < 0 := by exact_mod_cast hneg
    omega
  split_ifs with h1 h2 h3
  · exact hfl
  · exact hup h1
  · exact hfl
  · exact hup h1

/-- Equation lemma: `parse_unsigned` through a computed split. -/
theorem parse_unsigned_eq (cs intPart fracPart : List Char)
    (h : splitAtDot cs = (intPart, some fracPart)) :
    parse_unsigned cs =
      if intPart = [] ∨ fracPart = [] then none
      else some ((charsToNat intPart : ℚ) +
        (charsToNat fracPart : ℚ) / 10 ^ fracPart.length) := by
  unfold parse_unsigned
  rw [h]

/-- Equation lemma: `parse_fixed` on a nonempty string. -/
theorem parse_fixed_cons (c : Char) (rest : List Char) :
    parse_fixed (c :: rest) =
      if c = '-' then (parse_unsigned rest).map (fun (q : ℚ) => -q)
      else parse_unsigned (c :: rest) := rfl

/-- Parsing the unsigned body the writer emits for the scaled value `m`
recovers `m / 10 ^ prec`. -/
theorem parse_unsigned_format (prec : ℕ) (hp : 0 < prec) (m : ℕ) :
    parse_unsigned (natToChars (m / 10 ^ prec) ++
        '.' :: padLeftZeros prec (natToChars (m % 10 ^ prec))) =
      some ((m : ℚ) / 10 ^ prec) := by
  have hmod_lt : m % 10 ^ prec < 10 ^ prec := Nat.mod_lt _ (by positivity)
  have hflen : (padLeftZeros prec (natToChars (m % 10 ^ prec))).length = prec :=
    padLeftZeros_length (natToChars_length_le hp hmod_lt)
  have hino : ('.' : Char) ∉ natToChars (m / 10 ^ prec) := by
    intro hmem
    have hb := mem_natToChars_toNat hmem
    have h46 : ('.' : Char).toNat = 46 := by decide
    omega
  have hfne : padLeftZeros prec (natToChars (m % 10 ^ prec)) ≠ [] := by
    intro h
    rw [h] at hflen
    simp at hflen
    omega
  rw [parse_unsigned_eq _ _ _ (splitAtDot_append _ _ hino)]
  rw [if_neg (by
    push_neg
    exact ⟨natToChars_ne_nil _, hfne⟩)]
  rw [charsToNat_natToChars, charsToNat_padLeftZeros, charsToNat_natToChars, hflen]
  congr 1
  have hdm := Nat.div_add_mod m (10 ^ prec)
  have hcast := congrArg (fun (k : ℕ) => (k : ℚ)) hdm
  push_cast at hcast
  have h10 : ((10 : ℚ)) ^ prec ≠ 0 := by positivity
  field_simp
  linarith [hcast]

/-- The round trip of the writer's fixed-point formatting: parsing the
emitted field recovers exactly the value rounded to `prec` decimal
places. -/
theorem parse_format_fixed (prec : ℕ) (hp : 0 < prec) (q : ℚ) :
    parse_fixed (format_fixed prec q) =
      some (((roundHalfEven (q * (10 : ℚ) ^ prec) : ℤ) : ℚ) / 10 ^ prec) := by
  by_cases hq : q < 0
  · have hm_nonpos : roundHalfEven (q * (10 : ℚ) ^ prec) ≤ 0 :=
      roundHalfEven_nonpos (mul_nonpos_of_nonpos_of_nonneg (le_of_lt hq) (by positivity))
    unfold format_fixed
    rw [if_pos hq, List.singleton_append, List.cons_append, parse_fixed_cons, if_pos rfl]
    rw [parse_unsigned_format prec hp]
    simp only [Option.map_some']
    have habs : (((roundHalfEven (q * (10 : ℚ) ^ prec)).natAbs : ℕ) : ℚ) =
        -((roundHalfEven (q * (10 : ℚ) ^ prec) : ℤ) : ℚ) := by
      have h2 := congrArg (fun (z : ℤ) => (z : ℚ)) (Int.ofNat_natAbs_of_nonpos hm_nonpos)
      simp only [Int.cast_natCast, Int.cast_neg] at h2
      exact h2
    rw [habs]
    congr 1
    ring
  · push_neg at hq
    have hm_nonneg : 0 ≤ roundHalfEven (q * (10 : ℚ) ^ prec) :=
      roundHalfEven_nonneg (mul_nonneg hq (by positivity))
    unfold format_fixed
    rw [if_neg (not_lt.mpr hq), List.nil_append]
    obtain ⟨c, cs', hcons⟩ := List.exists_cons_of_ne_nil
      (natToChars_ne_nil ((roundHalfEven (q * (10 : ℚ) ^ prec)).natAbs / 10 ^ prec))
    rw [hcons, List.cons_append, parse_fixed_cons]
    have hcne : ¬c = '-' := by
      have hmem : c ∈ natToChars ((roundHalfEven (q * (10 : ℚ) ^ prec)).natAbs / 10 ^ prec) :=
        hcons ▸ List.mem_cons_self c cs'
      have hb := mem_natToChars_toNat hmem
      have h45 : ('-' : Char).toNat = 45 := by decide
      intro h
      rw [h, h45] at hb
      omega
    rw [if_neg hcne, ← List.cons_append, ← hcons, parse_unsigned_format prec hp]
    congr 1
    have habs : (((roundHalfEven (q * (10 : ℚ) ^ prec)).natAbs : ℕ) : ℚ) =
        ((roundHalfEven (q * (10 : ℚ) ^ prec) : ℤ) : ℚ) := by
      have h2 := congrArg (fun (z : ℤ) => (z : ℚ)) (Int.natAbs_of_nonneg hm_nonneg)
      simp only [Int.cast_natCast] at h2
      exact h2
    rw [habs]

/-! ## C8 -/

/-- C8.  The writer's header is `timestamp,x_<unit>,y_<unit>,z_<unit>` in
raw mode and `time,diff_rss_<unit>` in processed mode; every data row is
the write time to 3 decimal places followed by the payload floats to 4
decimal places, comma separated; parsing an emitted 4-decimal field back
recovers exactly the payload value rounded (half-to-even) to 4 decimal
places — in particular writing `(x=1.23456, y=-2.0, z=0.001)` emits the
fields `1.2346`, `-2.0000`, `0.0010`, which parse back to `1.2346`,
`-2` and `0.0010`. -/
theorem c8_csv_row_roundtrip :
    (∀ units : List Char,
      write_header true units =
        ['t', 'i', 'm', 'e', 's', 't', 'a', 'm', 'p', ',', 'x', '_'] ++ units ++
          [',', 'y', '_'] ++ units ++ [',', 'z', '_'] ++ units ++ ['\n'] ∧
      write_header false units =
        ['t', 'i', 'm', 'e', ',', 'd', 'i', 'f', 'f', '_', 'r', 's', 's', '_'] ++
          units ++ ['\n']) ∧
    (∀ (now x y z : ℚ), format_line now [x, y, z] =
      format_fixed 3 now ++ ',' ::
        (format_fixed 4 x ++ ',' :: (format_fixed 4 y ++ ',' :: (format_fixed 4 z ++ ['\n'])))) ∧
    (∀ q : ℚ, parse_fixed (format_fixed 4 q) =
      some (((roundHalfEven (q * (10 : ℚ) ^ (4 : ℕ)) : ℤ) : ℚ) / 10 ^ (4 : ℕ))) ∧
    format_fixed 4 (123456 / 100000) = ['1', '.', '2', '3', '4', '6'] ∧
    format_fixed 4 (-2) = ['-', '2', '.', '0', '0', '0', '0'] ∧
    format_fixed 4 (1 / 1000) = ['0', '.', '0', '0', '1', '0'] ∧
    parse_fixed ['1', '.', '2', '3', '4', '6'] = some (12346 / 10000) ∧
    parse_fixed ['-', '2', '.', '0', '0', '0', '0'] = some (-2) ∧
    parse_fixed ['0', '.', '0', '0', '1', '0'] = some (10 / 10000) := by
  have hr1 : roundHalfEven ((123456 / 100000 : ℚ) * (10 : ℚ) ^ (4 : ℕ)) = 12346 := by
    have hx : (123456 / 100000 : ℚ) * (10 : ℚ) ^ (4 : ℕ) = 61728 / 5 := by norm_num
    have hfloor : ⌊(61728 / 5 : ℚ)⌋ = 12345 := by
      rw [Int.floor_eq_iff]
      constructor <;> norm_num
    rw [hx]
    unfold roundHalfEven
    rw [hfloor, if_neg (by push_cast; norm_num), if_pos (by push_cast; norm_num)]
    norm_num
  have hr2 : roundHalfEven ((-2 : ℚ) * (10 : ℚ) ^ (4 : ℕ)) = -20000 := by
    have hx : (-2 : ℚ) * (10 : ℚ) ^ (4 : ℕ) = -20000 := by norm_num
    have hfloor : ⌊(-20000 : ℚ)⌋ = -20000 := by
      rw [show ((-20000 : ℚ)) = ((-20000 : ℤ) : ℚ) by norm_num, Int.floor_intCast]
    rw [hx]
    unfold roundHalfEven
    rw [hfloor, if_pos (by push_cast; norm_num)]
  have hr3 : roundHalfEven ((1 / 1000 : ℚ) * (10 : ℚ) ^ (4 : ℕ)) = 10 := by
    have hx : (1 / 1000 : ℚ) * (10 : ℚ) ^ (4 : ℕ) = 10 := by norm_num
    have hfloor : ⌊(10 : ℚ)⌋ = 10 := by
      rw [show ((10 : ℚ)) = ((10 : ℤ) : ℚ) by norm_num, Int.floor_intCast]
    rw [hx]
    unfold roundHalfEven
    rw [hfloor, if_pos (by push_cast; norm_num)]
  have hfmt1 : format_fixed 4 (123456 / 100000) = ['1', '.', '2', '3', '4', '6'] := by
    unfold format_fixed
    rw [hr1, if_neg (by norm_num)]
    decide
  have hfmt2 : format_fixed 4 (-2) = ['-', '2', '.', '0', '0', '0', '0'] := by
    unfold format_fixed
    rw [hr2, if_pos (by norm_num)]
    decide
  have hfmt3 : format_fixed 4 (1 / 1000) = ['0', '.', '0', '0', '1', '0'] := by
    unfold format_fixed
    rw [hr3, if_neg (by norm_num)]
    decide
  refine ⟨fun units => ⟨rfl, rfl⟩, ?_, fun q => parse_format_fixed 4 (by norm_num) q, hfmt1,
    hfmt2, hfmt3, ?_, ?_, ?_⟩
  · intro now x y z
    simp [format_line, join_commas, List.append_assoc]
  · rw [← hfmt1, parse_format_fixed 4 (by norm_num), hr1]
    norm_num
  · rw [← hfmt2, parse_format_fixed 4 (by norm_num), hr2]
    norm_num
  · rw [← hfmt3, parse_format_fixed 4 (by norm_num), hr3]
    norm_num

/-! ## C10 -/

/-- C10.  `_parse_enum_name` returns the number formed by concatenating
exactly the digit characters of the option name — every non-digit
character, including the underscore that encodes a decimal point, is
removed before the underscore-to-dot replacement, which is therefore a
no-op — so `'_12_5Hz'` resolves to 125, not 12.5, and
`configure_accelerometer` writes this digit-concatenation value to the
device as the ODR/range. -/
theorem c10_enum_name_digit_concat :
    (∀ name : List Char, name.filter Char.isDigit ≠ [] →
      parse_enum_name name =
        some ((Nat.ofDigits 10
          (((name.filter Char.isDigit).map (fun (c : Char) => c.toNat - 48)).reverse) : ℕ) : ℚ)) ∧
    parse_enum_name ['_', '1', '2', '_', '5', 'H', 'z'] = some 125 ∧
    ((125 : ℚ) ≠ 25 / 2) ∧
    configure_accelerometer ⟨false, false, .bmi160⟩ ['_', '1', '2', '_', '5', 'H', 'z']
        ['_', '1', '6', 'g'] = some (125, 16, ⟨true, false, .bmi160⟩) := by
  have hgen : ∀ name : List Char, name.filter Char.isDigit ≠ [] →
      parse_enum_name name =
        some ((Nat.ofDigits 10
          (((name.filter Char.isDigit).map (fun (c : Char) => c.toNat - 48)).reverse) : ℕ) : ℚ) := by
    intro name hne
    unfold parse_enum_name
    rw [if_neg hne]
    have hval : charsToNat (name.filter Char.isDigit) =
        Nat.ofDigits 10
          (((name.filter Char.isDigit).map (fun (c : Char) => c.toNat - 48)).reverse) := by
      unfold charsToNat
      rw [charsToNat_foldl_eq]
      simp
    rw [hval]
  have hfil : List.filter Char.isDigit ['_', '1', '2', '_', '5', 'H', 'z'] = ['1', '2', '5'] := by
    decide
  have hp125 : parse_enum_name ['_', '1', '2', '_', '5', 'H', 'z'] = some 125 := by
    unfold parse_enum_name
    rw [hfil, if_neg (by decide)]
    have hv : charsToNat ['1', '2', '5'] = 125 := by decide
    rw [hv]
    norm_num
  have hfil2 : List.filter Char.isDigit ['_', '1', '6', 'g'] = ['1', '6'] := by decide
  have hp16 : parse_enum_name ['_', '1', '6', 'g'] = some 16 := by
    unfold parse_enum_name
    rw [hfil2, if_neg (by decide)]
    have hv : charsToNat ['1', '6'] = 16 := by decide
    rw [hv]
    norm_num
  refine ⟨hgen, hp125, by norm_num, ?_⟩
  unfold configure_accelerometer
  rw [hp125, hp16]

/-- Witness for C10's digit-concatenation rule at the name `'5'`. -/
theorem c10_enum_name_digit_concat_witness :
    parse_enum_name ['5'] =
      some ((Nat.ofDigits 10
        ((((['5'] : List Char).filter Char.isDigit).map
          (fun (c : Char) => c.toNat - 48)).reverse) : ℕ) : ℚ) :=
  c10_enum_name_digit_concat.1 ['5'] (by decide)

end SleepTracker
